import Mathlib

/-!
Verification of the canvas server's row codec, color table, bitmap codec and
transfer protocol, shallowly embedded from `src/main.rs` and `src/image.rs`.

Byte streams are `List Nat` (each entry a byte value), 16-bit words are `Nat`
with explicit `% 2 ^ k` masks where the Rust code masks or casts.  Fallible
operations (`read_exact` short reads, `unwrap`/`expect` panics) are modelled
with `Option`, `none` standing for the aborted computation.  `usize`
arithmetic that can wrap is modelled with explicit `% 2 ^ 64` (release-profile
two's-complement wraparound).
-/

set_option autoImplicit false

/-- `u16::to_le_bytes`: the two little-endian bytes of a 16-bit value. -/
def u16le (v : Nat) : List Nat := [v % 256, v / 256 % 256]

/-- `write_u32::<LE>` / `write_i32::<LE>`: the four little-endian bytes of a
32-bit value (a wider `Nat` is truncated to its low 32 bits, as the Rust
casts do). -/
def u32le (v : Nat) : List Nat :=
  [v % 256, v / 256 % 256, v / 65536 % 256, v / 16777216 % 256]

/-- `u16::from_le_bytes` applied to consecutive byte pairs, as produced by
`array_chunks::<2>` (a dangling odd byte is dropped, exactly as
`array_chunks` drops an incomplete chunk). -/
def bytesToU16s : List Nat → List Nat
  | a :: b :: rest => (a + 256 * b) :: bytesToU16s rest
  | _ => []

/-- `read_exact` of `n` bytes from a byte stream: the bytes read and the
remaining stream, or `none` on a short read. -/
def readBytes (n : Nat) (s : List Nat) : Option (List Nat × List Nat) :=
  if n ≤ s.length then some (s.take n, s.drop n) else none

/-- `color_2_code` from `src/image.rs`: 16-bit color to 4-bit palette code. -/
def color_2_code (color : Nat) : Option Nat :=
  if color = 0xF800 then some 0
  else if color = 0x07E0 then some 1
  else if color = 0x001F then some 2
  else if color = 0x07FF then some 3
  else if color = 0xF81F then some 4
  else if color = 0xFFE0 then some 5
  else if color = 0xFFFF then some 6
  else if color = 0x520A then some 7
  else if color = 0x0000 then some 8
  else none

/-- `code_2_color` from `src/image.rs`: 4-bit palette code to 16-bit color. -/
def code_2_color (code : Nat) : Option Nat :=
  if code = 0 then some 0xF800
  else if code = 1 then some 0x07E0
  else if code = 2 then some 0x001F
  else if code = 3 then some 0x07FF
  else if code = 4 then some 0xF81F
  else if code = 5 then some 0xFFE0
  else if code = 6 then some 0xFFFF
  else if code = 7 then some 0x520A
  else if code = 8 then some 0x0000
  else none

/-- The fixed 9-entry palette, indexed by code. -/
def palette : List Nat :=
  [0xF800, 0x07E0, 0x001F, 0x07FF, 0xF81F, 0xFFE0, 0xFFFF, 0x520A, 0x0000]

/-- Code field of a segment word: `(segment & 0xF)`. -/
def segCode (seg : Nat) : Nat := seg % 16

/-- Run-length field of a segment word: `(segment >> 4) & 0x1FF`. -/
def segLen (seg : Nat) : Nat := seg / 16 % 512

/-- The run of pixels a single segment word expands to. -/
def expandSeg (seg : Nat) : List Nat := List.replicate (segLen seg) (segCode seg)

/-- `codes.iter_mut().skip(idx).take(count).for_each(|v| *v = code)`:
overwrite `count` entries starting at `idx` with `code`. -/
def writeRun (codes : List Nat) (idx count code : Nat) : List Nat :=
  codes.take idx ++ List.replicate count code ++ codes.drop (idx + count)

/-- Loop of `uncompress` from `src/main.rs`: `idx` is the running pixel
count; a segment that would overrun the destination breaks out of the loop. -/
def uncompressAux : List Nat → List Nat → Nat → List Nat × Nat
  | [], codes, idx => (codes, idx)
  | seg :: rest, codes, idx =>
    if codes.length < idx + segLen seg then (codes, idx)
    else uncompressAux rest (writeRun codes idx (segLen seg) (segCode seg)) (idx + segLen seg)

/-- `uncompress(segments, codes)` from `src/main.rs`: returns the updated
destination buffer together with the returned pixel count. -/
def uncompress (segments codes : List Nat) : List Nat × Nat :=
  uncompressAux segments codes 0

/-- Wrapping `usize` subtraction (release-profile two's complement). -/
def wsub (a b : Nat) : Nat := (a + 2 ^ 64 - b) % 2 ^ 64

/-- `codes.iter().skip(p + 1).position(|&hi| hi != lo).unwrap_or(codes.len())`:
note the found index is relative to the skipped iterator while the fallback is
the absolute length, exactly as in the source. -/
def findRun (codes : List Nat) (p lo : Nat) : Nat :=
  match (codes.drop (p + 1)).findIdx? (fun hi => hi != lo) with
  | some j => j
  | none => codes.length

/-- Loop of `compress` from `src/main.rs`.  `p` is the index of the element
the code iterator yields next, `cap` the capacity of the segment buffer,
`nseg`/`npix` the running counters.  `code_it.nth(r - 1)` consumes `r` more
elements when `r ≥ 1`; for `r = 0` the subtraction wraps and the huge `nth`
exhausts the iterator, ending the loop.  Returns the emitted segment words
and the `(num_segments, num_pixels)` pair.  `fuel` only bounds the structural
recursion; `codes.length + 1` steps are always enough since every iteration
either stops or advances `p`. -/
def compressAux : Nat → Nat → List Nat → Nat → Nat → Nat → List Nat × Nat × Nat
  | 0, _, _, _, nseg, npix => ([], nseg, npix)
  | fuel + 1, cap, codes, p, nseg, npix =>
    if h : p < codes.length then
      let lo := codes.get ⟨p, h⟩
      let r := findRun codes p lo
      let count := wsub r p % 512
      if nseg < cap then
        let seg := count * 16 + lo % 16
        let npix2 := (npix + wsub r p) % 2 ^ 64
        if r = 0 then ([seg], nseg + 1, npix2)
        else
          match compressAux fuel cap codes (p + r + 1) (nseg + 1) npix2 with
          | (segs, ns, np) => (seg :: segs, ns, np)
      else ([], nseg, npix)
    else ([], nseg, npix)

/-- `compress(segments, codes)` from `src/main.rs`, for a segment buffer of
capacity `cap`: the emitted segment words and `(num_segments, num_pixels)`. -/
def compress (cap : Nat) (codes : List Nat) : List Nat × Nat × Nat :=
  compressAux (codes.length + 1) cap codes 0 0 0

/-! ### Color table (C5) -/

/-- C5: the code/color translations are exact mutual inverses on the fixed
9-entry table: `code_2_color i` is the `i`-th palette value and
`color_2_code` maps it back to `i` for every `i < 9`; `color_2_code` is
`none` on every value outside the table; `code_2_color` is `none` on every
code greater than 8. -/
theorem c5_color_table_bijection :
    (∀ i, (hi : i < 9) → code_2_color i = some (palette.get ⟨i, hi⟩) ∧
      color_2_code (palette.get ⟨i, hi⟩) = some i) ∧
    (∀ v, v ∉ palette → color_2_code v = none) ∧
    (∀ c, 8 < c → code_2_color c = none) := by
  refine ⟨?_, ?_, ?_⟩
  · intro i hi
    interval_cases i <;> exact ⟨rfl, rfl⟩
  · intro v hv
    simp only [palette, List.mem_cons, List.not_mem_nil, or_false, not_or] at hv
    obtain ⟨h1, h2, h3, h4, h5, h6, h7, h8, h9⟩ := hv
    simp [color_2_code, h1, h2, h3, h4, h5, h6, h7, h8, h9]
  · intro c hc
    have h0 : c ≠ 0 := by omega
    have h1 : c ≠ 1 := by omega
    have h2 : c ≠ 2 := by omega
    have h3 : c ≠ 3 := by omega
    have h4 : c ≠ 4 := by omega
    have h5 : c ≠ 5 := by omega
    have h6 : c ≠ 6 := by omega
    have h7 : c ≠ 7 := by omega
    have h8 : c ≠ 8 := by omega
    simp [code_2_color, h0, h1, h2, h3, h4, h5, h6, h7, h8]

theorem c5_color_table_bijection_witness :
    (4 < 9 ∧ code_2_color 4 = some (palette.get ⟨4, by decide⟩)) ∧
    ((9999 : Nat) ∉ palette ∧ color_2_code 9999 = none) ∧
    (8 < 42 ∧ code_2_color 42 = none) :=
  ⟨⟨by decide, (c5_color_table_bijection.1 4 (by decide)).1⟩,
   ⟨by decide, c5_color_table_bijection.2.1 9999 (by decide)⟩,
   ⟨by decide, c5_color_table_bijection.2.2 42 (by decide)⟩⟩

/-! ### Row codec bug (C1, C2) -/

/-- C1: the claimed round trip `uncompress (compress codes) = codes` fails on
the width-3 row `[0, 0, 1]`: `compress` emits the segments
`(code 0, len 1), (code 1, len 1)` — `position` on the skipped iterator
yields a run-relative index that the code subtracts as if absolute — so
expanding them reproduces `[0, 1, 0]`, not the original row. -/
theorem c1_roundtrip_fails_at_001 :
    (uncompress (compress 105 [0, 0, 1]).1 (List.replicate 3 0)).1 = [0, 1, 0] ∧
    [0, 1, 0] ≠ [0, 0, 1] := by decide

/-- C2: on the width-3 row `[0, 0, 1]`, `compress` emits 2 segments (well
under 105), yet their run lengths sum to 2, not to the row width 3. -/
theorem c2_segment_sum_fails_at_001 :
    (compress 105 [0, 0, 1]).2.1 = 2 ∧ (compress 105 [0, 0, 1]).2.1 ≤ 105 ∧
    ((compress 105 [0, 0, 1]).1.map segLen).sum = 2 ∧ (2 : Nat) ≠ 3 := by decide

/-! ### Uncompress safety (C7) -/

theorem writeRun_length (codes : List Nat) (idx count code : Nat)
    (h : idx + count ≤ codes.length) :
    (writeRun codes idx count code).length = codes.length := by
  simp only [writeRun, List.length_append, List.length_take, List.length_replicate,
    List.length_drop]
  omega

theorem uncompressAux_characterization (segments : List Nat) :
    ∀ (codes : List Nat) (idx : Nat), idx ≤ codes.length →
    ∃ k, k ≤ segments.length ∧
      uncompressAux segments codes idx =
        (codes.take idx ++ (segments.take k).flatMap expandSeg ++
          codes.drop (idx + ((segments.take k).map segLen).sum),
         idx + ((segments.take k).map segLen).sum) ∧
      idx + ((segments.take k).map segLen).sum ≤ codes.length ∧
      (k = segments.length ∨
        (k < segments.length ∧
          codes.length <
            idx + ((segments.take k).map segLen).sum + segLen (segments.getD k 0))) := by
  induction segments with
  | nil =>
    intro codes idx h
    refine ⟨0, Nat.le_refl 0, ?_, by simpa, Or.inl rfl⟩
    simp [uncompressAux, List.take_append_drop]
  | cons seg rest ih =>
    intro codes idx h
    by_cases hov : codes.length < idx + segLen seg
    · refine ⟨0, Nat.zero_le _, ?_, by simpa, Or.inr ⟨by simp, by simpa⟩⟩
      simp [uncompressAux, if_pos hov, List.take_append_drop]
    · have hfit : idx + segLen seg ≤ codes.length := by omega
      have hw : (writeRun codes idx (segLen seg) (segCode seg)).length = codes.length :=
        writeRun_length codes idx (segLen seg) (segCode seg) hfit
      obtain ⟨k, hk, heq, hle, hlast⟩ :=
        ih (writeRun codes idx (segLen seg) (segCode seg)) (idx + segLen seg)
          (by rw [hw]; exact hfit)
      have htk : (codes.take idx).length = idx := by
        simp [List.length_take]; omega
      have hrep : (List.replicate (segLen seg) (segCode seg)).length = segLen seg := by
        simp
      have htake : (writeRun codes idx (segLen seg) (segCode seg)).take (idx + segLen seg) =
          codes.take idx ++ expandSeg seg := by
        have : writeRun codes idx (segLen seg) (segCode seg) =
            (codes.take idx ++ List.replicate (segLen seg) (segCode seg)) ++
              codes.drop (idx + segLen seg) := by
          simp [writeRun, List.append_assoc]
        rw [this, List.take_left' (by simp [htk]), expandSeg]
      have hdrop : ∀ m : Nat,
          (writeRun codes idx (segLen seg) (segCode seg)).drop (idx + segLen seg + m) =
            codes.drop (idx + segLen seg + m) := by
        intro m
        have h1 : writeRun codes idx (segLen seg) (segCode seg) =
            (codes.take idx ++ List.replicate (segLen seg) (segCode seg)) ++
              codes.drop (idx + segLen seg) := by
          simp [writeRun, List.append_assoc]
        have h2 : ((codes.take idx ++ List.replicate (segLen seg) (segCode seg)) ++
              codes.drop (idx + segLen seg)).drop (idx + segLen seg + m) =
            (codes.drop (idx + segLen seg)).drop m := by
          have hlen : (codes.take idx ++ List.replicate (segLen seg) (segCode seg)).length =
              idx + segLen seg := by simp [htk]
          rw [List.drop_append_eq_append_drop]
          simp [hlen]
        rw [h1, h2, List.drop_drop]
      refine ⟨k + 1, by simpa using hk, ?_, ?_, ?_⟩
      · have hstep : uncompressAux (seg :: rest) codes idx =
            uncompressAux rest (writeRun codes idx (segLen seg) (segCode seg))
              (idx + segLen seg) := by
          simp [uncompressAux, if_neg hov]
        rw [hstep, heq, htake]
        have hs : ((seg :: rest).take (k + 1)).flatMap expandSeg =
            expandSeg seg ++ (rest.take k).flatMap expandSeg := by
          simp [List.take_succ_cons]
        have hsum : (((seg :: rest).take (k + 1)).map segLen).sum =
            segLen seg + ((rest.take k).map segLen).sum := by
          simp [List.take_succ_cons]
        rw [hs, hsum, hdrop (((rest.take k).map segLen).sum)]
        simp [List.append_assoc, Nat.add_assoc]
      · rw [hw] at hle
        have hsum : (((seg :: rest).take (k + 1)).map segLen).sum =
            segLen seg + ((rest.take k).map segLen).sum := by
          simp [List.take_succ_cons]
        omega
      · rcases hlast with hfin | ⟨hlt, hovf⟩
        · exact Or.inl (by simp [hfin])
        · refine Or.inr ⟨by simpa using hlt, ?_⟩
          rw [hw] at hovf
          have hsum : (((seg :: rest).take (k + 1)).map segLen).sum =
              segLen seg + ((rest.take k).map segLen).sum := by
            simp [List.take_succ_cons]
          have hget : (seg :: rest).getD (k + 1) 0 = rest.getD k 0 := by simp
          rw [hsum, hget]
          omega

/-- C7: `uncompress` expands a prefix of the segment list into run-length
repetitions appended in order, stops at the first segment whose cumulative
length would exceed the destination, never changes the buffer length (no
out-of-bounds write, and the embedding is total, so no panic), and leaves
every entry from the returned pixel count onward at its initial value. -/
theorem c7_uncompress_safe (segments codes : List Nat) :
    ∃ k, k ≤ segments.length ∧
      uncompress segments codes =
        ((segments.take k).flatMap expandSeg ++
          codes.drop (((segments.take k).map segLen).sum),
         ((segments.take k).map segLen).sum) ∧
      ((segments.take k).map segLen).sum ≤ codes.length ∧
      (uncompress segments codes).1.length = codes.length ∧
      (k = segments.length ∨
        (k < segments.length ∧
          codes.length <
            ((segments.take k).map segLen).sum + segLen (segments.getD k 0))) := by
  obtain ⟨k, hk, heq, hle, hlast⟩ :=
    uncompressAux_characterization segments codes 0 (Nat.zero_le _)
  have heq0 : uncompress segments codes =
      ((segments.take k).flatMap expandSeg ++
        codes.drop (((segments.take k).map segLen).sum),
       ((segments.take k).map segLen).sum) := by
    simpa [uncompress] using heq
  refine ⟨k, hk, heq0, by simpa using hle, ?_, by simpa using hlast⟩
  rw [heq0]
  have hflat : ((segments.take k).flatMap expandSeg).length =
      ((segments.take k).map segLen).sum := by
    induction segments.take k with
    | nil => simp
    | cons s t iht => simp [expandSeg, iht]
  simp only [List.length_append, hflat, List.length_drop]
  omega

theorem c7_uncompress_safe_witness :
    ∃ k, k ≤ [33].length ∧
      uncompress [33] [5, 5, 5] =
        (([33].take k).flatMap expandSeg ++
          [5, 5, 5].drop ((([33].take k).map segLen).sum),
         (([33].take k).map segLen).sum) ∧
      (([33].take k).map segLen).sum ≤ [5, 5, 5].length ∧
      (uncompress [33] [5, 5, 5]).1.length = [5, 5, 5].length ∧
      (k = [33].length ∨
        (k < [33].length ∧
          [5, 5, 5].length <
            (([33].take k).map segLen).sum + segLen ([33].getD k 0))) :=
  c7_uncompress_safe [33] [5, 5, 5]

/-! ### Bitmap codec (C4, C6) -/

/-- The 54 header bytes `save_bmp_image` writes, in write order: the 14-byte
BMP header (`BM`, file size, two reserved zeros, pixel offset 54) followed by
the 40-byte DIB header (header size 40, width, height, planes 1, 16 bits per
pixel, compression 0, image size, four zero fields). -/
def bmpHeaderBytes (width height image_size : Nat) : List Nat :=
  [66, 77] ++ u32le (54 + image_size) ++ u16le 0 ++ u16le 0 ++ u32le 54 ++
    u32le 40 ++ u32le width ++ u32le height ++ u16le 1 ++ u16le 16 ++
    u32le 0 ++ u32le image_size ++ u32le 0 ++ u32le 0 ++ u32le 0 ++ u32le 0

/-- One pixel row as written to the file: each color as two little-endian
bytes, then the padding bytes. -/
def encodeRow (pad : Nat) (row : List Nat) : List Nat :=
  row.flatMap u16le ++ List.replicate pad 0

/-- `save_bmp_image` from `src/image.rs` as the byte stream it writes:
54 header bytes, then the pixel rows bottom-up (`data.iter().rev()`), each
padded to a multiple of 4 bytes.  `none` models the panic of
`data.first().unwrap()` on an empty grid. -/
def save_bmp_image (data : List (List Nat)) : Option (List Nat) :=
  match data with
  | [] => none
  | firstRow :: _ =>
    let height := data.length
    let width := firstRow.length
    let row_size := width * 2
    let padding_size := (4 - row_size % 4) % 4
    let image_size := (row_size + padding_size) * height
    some (bmpHeaderBytes width height image_size ++
      (data.reverse.map (encodeRow padding_size)).flatten)

/-- `u32::from_le_bytes` on four bytes. -/
def fromLE32 (b0 b1 b2 b3 : Nat) : Nat :=
  b0 + 256 * b1 + 65536 * b2 + 16777216 * b3

/-- Pixel-row loop of `load_bmp_image`: read the requested number of rows in
file (bottom-up) order, each `2 * w` pixel bytes then `pad` padding bytes. -/
def loadRows : Nat → Nat → Nat → List Nat → Option (List (List Nat))
  | 0, _, _, _ => some []
  | h + 1, w, pad, s =>
    match readBytes (2 * w) s with
    | none => none
    | some (rowBytes, s1) =>
      match readBytes pad s1 with
      | none => none
      | some (_, s2) =>
        match loadRows h w pad s2 with
        | none => none
        | some rows => some (bytesToU16s rowBytes :: rows)

/-- `load_bmp_image` from `src/image.rs`.  `file = none` models an absent
file (the `File::open` error branch); a `none` result models a panic
(`expect` on a short read).  Width and height are taken from header offsets
18–21 and 22–25; on a mismatch with the expected dimensions a blank grid is
returned.  Rows appear in the file bottom-up, so the assembled grid is their
reversal. -/
def load_bmp_image (file : Option (List Nat)) (expected_width expected_height : Nat) :
    Option (List (List Nat)) :=
  match file with
  | none => some (List.replicate expected_height (List.replicate expected_width 0))
  | some s =>
    match readBytes 54 s with
    | none => none
    | some (hdr, rest) =>
      let width := fromLE32 (hdr.getD 18 0) (hdr.getD 19 0) (hdr.getD 20 0) (hdr.getD 21 0)
      let height := fromLE32 (hdr.getD 22 0) (hdr.getD 23 0) (hdr.getD 24 0) (hdr.getD 25 0)
      if width ≠ expected_width ∨ height ≠ expected_height then
        some (List.replicate expected_height (List.replicate expected_width 0))
      else
        let row_size := width * 2
        let padding_size := (4 - row_size % 4) % 4
        match loadRows height width padding_size rest with
        | none => none
        | some rows => some rows.reverse

/-- C6: loading an absent file, or a file whose recorded header dimensions
differ from the expected ones, succeeds and yields the expected-size blank
grid (every entry the color value 0), not a resized image. -/
theorem c6_fallback_blank (ew eh : Nat) :
    load_bmp_image none ew eh =
      some (List.replicate eh (List.replicate ew 0)) ∧
    ∀ s : List Nat, 54 ≤ s.length →
      (fromLE32 ((s.take 54).getD 18 0) ((s.take 54).getD 19 0)
          ((s.take 54).getD 20 0) ((s.take 54).getD 21 0) ≠ ew ∨
        fromLE32 ((s.take 54).getD 22 0) ((s.take 54).getD 23 0)
          ((s.take 54).getD 24 0) ((s.take 54).getD 25 0) ≠ eh) →
      load_bmp_image (some s) ew eh =
        some (List.replicate eh (List.replicate ew 0)) := by
  refine ⟨rfl, ?_⟩
  intro s hs hmis
  simp only [load_bmp_image, readBytes, if_pos hs]
  rw [if_pos hmis]

theorem c6_fallback_blank_witness :
    load_bmp_image none 20 20 =
      some (List.replicate 20 (List.replicate 20 0)) ∧
    (54 ≤ (List.replicate 54 0).length ∧
      (fromLE32 (((List.replicate 54 0).take 54).getD 18 0)
          (((List.replicate 54 0).take 54).getD 19 0)
          (((List.replicate 54 0).take 54).getD 20 0)
          (((List.replicate 54 0).take 54).getD 21 0) ≠ 20 ∨
        fromLE32 (((List.replicate 54 0).take 54).getD 22 0)
          (((List.replicate 54 0).take 54).getD 23 0)
          (((List.replicate 54 0).take 54).getD 24 0)
          (((List.replicate 54 0).take 54).getD 25 0) ≠ 20)) ∧
    load_bmp_image (some (List.replicate 54 0)) 20 20 =
      some (List.replicate 20 (List.replicate 20 0)) :=
  ⟨(c6_fallback_blank 20 20).1, ⟨by decide, by decide⟩,
    (c6_fallback_blank 20 20).2 (List.replicate 54 0) (by decide) (by decide)⟩

/-! ### Save path (C8, C9, C10) -/

/-- One row-message of the save body, from the loop of `save_image` in
`src/main.rs`: read the mode byte; mode 0 reads `width` raw code bytes,
any other mode `m` reads `2 * m` payload bytes, decodes them as `m`
little-endian segment words and expands them into a zero-initialised
`width`-entry buffer.  Returns the row's codes and the remaining stream. -/
def parseRowCodes : Nat → List Nat → Option (List Nat × List Nat)
  | _, [] => none
  | width, mode :: rest =>
    if mode = 0 then readBytes width rest
    else
      match readBytes (2 * mode) rest with
      | none => none
      | some (segBytes, rest2) =>
        some ((uncompress (bytesToU16s segBytes) (List.replicate width 0)).1, rest2)

/-- Row loop of `save_image`: parse `h` row-messages, translating each row's
codes to colors (`code_2_color(v).unwrap()`; `none` models the panic on an
invalid code).  Returns the assembled grid and the unread stream remainder. -/
def save_image_run : Nat → Nat → List Nat → Option (List (List Nat) × List Nat)
  | 0, _, s => some ([], s)
  | h + 1, w, s =>
    match parseRowCodes w s with
    | none => none
    | some (codes, rest) =>
      match codes.mapM code_2_color with
      | none => none
      | some colors =>
        match save_image_run h w rest with
        | none => none
        | some (rows, r2) => some (colors :: rows, r2)

/-- `save_image` end to end: the bytes persisted to the slot's file, or
`none` when the transfer aborted before all rows were assembled (the file is
written only after the loop over all rows has finished). -/
def save_image_file (h w : Nat) (s : List Nat) : Option (List Nat) :=
  match save_image_run h w s with
  | none => none
  | some (img, _) => save_bmp_image img

theorem save_image_run_length :
    ∀ (h w : Nat) (s : List Nat) (img : List (List Nat)) (rest : List Nat),
      save_image_run h w s = some (img, rest) → img.length = h := by
  intro h
  induction h with
  | zero =>
    intro w s img rest hrun
    simp only [save_image_run, Option.some.injEq, Prod.mk.injEq] at hrun
    simp [← hrun.1]
  | succ n ih =>
    intro w s img rest hrun
    simp only [save_image_run] at hrun
    split at hrun
    next => exact absurd hrun (by simp)
    next codes r1 hp =>
      split at hrun
      next => exact absurd hrun (by simp)
      next colors hm =>
        split at hrun
        next => exact absurd hrun (by simp)
        next rows r2 hr =>
          simp only [Option.some.injEq, Prod.mk.injEq] at hrun
          have hlen := ih w r1 rows r2 hr
          simp [← hrun.1, hlen]

/-- C8: the save path persists a file only after the complete grid is
assembled: whenever the row loop aborts (short read of a mode byte or of a
row payload), no file bytes are produced; and whenever file bytes are
produced, the row loop succeeded with a grid of exactly `h` rows, and the
file is its serialization. -/
theorem c8_no_partial_save (h w : Nat) (s : List Nat) :
    (save_image_run h w s = none → save_image_file h w s = none) ∧
    ∀ b, save_image_file h w s = some b →
      ∃ img rest, save_image_run h w s = some (img, rest) ∧ img.length = h ∧
        save_bmp_image img = some b := by
  constructor
  · intro hnone
    simp [save_image_file, hnone]
  · intro b hb
    rcases hr : save_image_run h w s with _ | ⟨img, rest⟩
    · simp [save_image_file, hr] at hb
    · refine ⟨img, rest, rfl, save_image_run_length h w s img rest hr, ?_⟩
      simpa [save_image_file, hr] using hb

theorem c8_no_partial_save_witness :
    save_image_run 1 2 [0, 9] = none ∧ save_image_file 1 2 [0, 9] = none :=
  ⟨by decide, (c8_no_partial_save 1 2 [0, 9]).1 (by decide)⟩

/-- C9: the end-to-end save scenario: height 2, width 4, row 0 raw
`[0,0,0,1]`, row 1 compressed with the single segment word 66
(code 2, length 4).  The assembled grid is the two claimed color rows, and
the persisted 70-byte file carries row 1's pixel bytes right after the
54-byte header and row 0's pixel bytes last. -/
theorem c9_end_to_end :
    save_image_run 2 4 [0, 0, 0, 0, 1, 1, 66, 0] =
      some ([[0xF800, 0xF800, 0xF800, 0x07E0], [0x001F, 0x001F, 0x001F, 0x001F]], []) ∧
    (save_image_file 2 4 [0, 0, 0, 0, 1, 1, 66, 0]).map List.length = some 70 ∧
    (save_image_file 2 4 [0, 0, 0, 0, 1, 1, 66, 0]).map (List.drop 54) =
      some [31, 0, 31, 0, 31, 0, 31, 0, 0, 248, 0, 248, 0, 248, 224, 7] := by decide

theorem bytesToU16s_length : ∀ l : List Nat, (bytesToU16s l).length = l.length / 2
  | [] => by simp [bytesToU16s]
  | [_] => by simp [bytesToU16s]
  | _ :: _ :: rest => by
    simp only [bytesToU16s, List.length_cons, bytesToU16s_length rest]
    omega

/-- C10: every nonzero mode byte `n` — the values 106–255 included — is
treated as compressed framing: exactly `2 * n` payload bytes are consumed,
decoded as `n` little-endian segment words and expanded; no 105 bound is
checked. -/
theorem c10_mode_byte_unbounded (w n : Nat) (payload rest : List Nat)
    (h1 : 1 ≤ n) (h2 : n ≤ 255) (hlen : payload.length = 2 * n) :
    parseRowCodes w (n :: payload ++ rest) =
      some ((uncompress (bytesToU16s payload) (List.replicate w 0)).1, rest) ∧
    (bytesToU16s payload).length = n := by
  constructor
  · have hn : n ≠ 0 := by omega
    have hread : readBytes (2 * n) (payload ++ rest) = some (payload, rest) := by
      simp only [readBytes, List.length_append, hlen]
      rw [if_pos (by omega)]
      rw [List.take_left' hlen, List.drop_left' hlen]
    rw [List.cons_append, parseRowCodes.eq_2, if_neg hn, hread]
  · rw [bytesToU16s_length, hlen]
    omega

set_option maxRecDepth 4000 in
theorem c10_mode_byte_unbounded_witness :
    1 ≤ 150 ∧ 150 ≤ 255 ∧ (List.replicate 300 7).length = 2 * 150 ∧
    (parseRowCodes 3 (150 :: List.replicate 300 7 ++ [9]) =
      some ((uncompress (bytesToU16s (List.replicate 300 7)) (List.replicate 3 0)).1, [9]) ∧
      (bytesToU16s (List.replicate 300 7)).length = 150) :=
  ⟨by decide, by decide, by simp,
    c10_mode_byte_unbounded 3 150 (List.replicate 300 7) [9] (by decide) (by decide) (by simp)⟩

/-! ### Load path (C3) -/

/-- Row loop of `load_image` from `src/main.rs`: for each row, translate the
colors to codes (`color_2_code(v).unwrap()`; `none` models the panic) and
write exactly those `width` raw code bytes — no mode byte; after every row
whose index is divisible by 10, read one acknowledgment byte from the client
(`none` models a short read).  Returns the bytes written and the unread
remainder of the client's acknowledgment stream. -/
def load_rows_model : List (List Nat) → Nat → List Nat → Option (List Nat × List Nat)
  | [], _, acks => some ([], acks)
  | row :: rest, i, acks =>
    match row.mapM color_2_code with
    | none => none
    | some codes =>
      if i % 10 = 0 then
        match acks with
        | [] => none
        | _ :: acks2 =>
          match load_rows_model rest (i + 1) acks2 with
          | none => none
          | some (bs, a) => some (codes ++ bs, a)
      else
        match load_rows_model rest (i + 1) acks with
        | none => none
        | some (bs, a) => some (codes ++ bs, a)

/-- `load_image` after the grid has been read: the row loop starting at index
0, followed by the read of one final confirmation byte. -/
def load_image_model (img : List (List Nat)) (acks : List Nat) :
    Option (List Nat × List Nat) :=
  match load_rows_model img 0 acks with
  | none => none
  | some (bs, acks2) =>
    match acks2 with
    | [] => none
    | _ :: rest => some (bs, rest)

/-- Number of in-loop acknowledgment bytes `load_image` reads for the given
number of rows, starting at row index `i`. -/
def ackCount : Nat → Nat → Nat
  | 0, _ => 0
  | n + 1, i => (if i % 10 = 0 then 1 else 0) + ackCount n (i + 1)

/-- C3 counterexample: for the one-row width-2 image `[[0xF800, 0xF800]]`
the load path writes the two raw code bytes `[0, 0]` — a §4.2 row-message
for width 2 would be at least 3 bytes (mode byte plus payload) — and it
consumes two acknowledgment bytes from the client (one after row 0, one
final); with no acknowledgment bytes available it aborts instead of
completing, so acknowledgment bytes are read as part of the body, contrary
to the claim. -/
theorem c3_load_framing_counterexample :
    load_image_model [[0xF800, 0xF800]] [7, 7] = some ([0, 0], []) ∧
    load_image_model [[0xF800, 0xF800]] [] = none := by decide

theorem load_rows_model_spec :
    ∀ (rows : List (List Nat)) (i : Nat) (acks : List Nat) (codeRows : List (List Nat)),
      rows.mapM (fun row => row.mapM color_2_code) = some codeRows →
      ackCount rows.length i ≤ acks.length →
      load_rows_model rows i acks =
        some (codeRows.flatten, acks.drop (ackCount rows.length i)) := by
  intro rows
  induction rows with
  | nil =>
    intro i acks codeRows hmap hack
    simp only [List.mapM_nil, Option.pure_def, Option.some.injEq] at hmap
    subst hmap
    simp [load_rows_model, ackCount]
  | cons row rest ih =>
    intro i acks codeRows hmap hack
    rw [List.mapM_cons] at hmap
    rcases hrow : row.mapM color_2_code with _ | codes <;> rw [hrow] at hmap
    · exact absurd hmap (by simp)
    rcases hrest : rest.mapM (fun r => r.mapM color_2_code) with _ | codeRest <;>
      rw [hrest] at hmap
    · exact absurd hmap (by simp)
    simp at hmap
    subst hmap
    simp only [List.length_cons, ackCount] at hack ⊢
    by_cases hi : i % 10 = 0
    · rw [if_pos hi] at hack ⊢
      rcases acks with _ | ⟨a, acks2⟩
      · simp at hack
      · have hack2 : ackCount rest.length (i + 1) ≤ acks2.length := by
          simp at hack; omega
        have hrec := ih (i + 1) acks2 codeRest hrest hack2
        simp only [load_rows_model, hrow, if_pos hi, hrec]
        have hidx : 1 + ackCount rest.length (i + 1) =
            ackCount rest.length (i + 1) + 1 := by omega
        rw [hidx]
        simp [List.drop_succ_cons]
    · rw [if_neg hi] at hack ⊢
      have hack2 : ackCount rest.length (i + 1) ≤ acks.length := by omega
      have hrec := ih (i + 1) acks codeRest hrest hack2
      simp only [load_rows_model, hrow, if_neg hi, hrec]
      simp

/-- C3 amended: on the load path the server writes, for each of the rows in
order, exactly that row's `width` raw color-code bytes with no mode byte and
no compressed framing; it reads one acknowledgment byte from the client
after every row whose index is divisible by 10 and one final acknowledgment
byte after all rows, consuming `ackCount height 0 + 1` acknowledgment bytes
in total. -/
theorem c3_load_raw_rows_with_acks (img : List (List Nat)) (acks : List Nat)
    (codeRows : List (List Nat))
    (hmap : img.mapM (fun row => row.mapM color_2_code) = some codeRows)
    (hacks : ackCount img.length 0 + 1 ≤ acks.length) :
    load_image_model img acks =
      some (codeRows.flatten, acks.drop (ackCount img.length 0 + 1)) := by
  have hrows := load_rows_model_spec img 0 acks codeRows hmap (by omega)
  simp only [load_image_model, hrows]
  have hlen : 0 < (acks.drop (ackCount img.length 0)).length := by
    simp only [List.length_drop]
    omega
  rcases hd : acks.drop (ackCount img.length 0) with _ | ⟨a, t⟩
  · rw [hd] at hlen; simp at hlen
  · have ht : t = acks.drop (ackCount img.length 0 + 1) := by
      have := List.tail_drop acks (ackCount img.length 0)
      rw [hd] at this
      simpa using this
    rw [ht]

theorem c3_load_raw_rows_with_acks_witness :
    [[0xF800]].mapM (fun row => row.mapM color_2_code) = some [[0]] ∧
    ackCount [[0xF800]].length 0 + 1 ≤ [3, 4].length ∧
    load_image_model [[0xF800]] [3, 4] =
      some ([[0]].flatten, [3, 4].drop (ackCount [[0xF800]].length 0 + 1)) :=
  ⟨by decide, by decide,
    c3_load_raw_rows_with_acks [[0xF800]] [3, 4] [[0]] (by decide) (by decide)⟩

/-! ### Bitmap round trip (C4) -/

theorem bmpHeaderBytes_length (w h isz : Nat) : (bmpHeaderBytes w h isz).length = 54 := by
  simp [bmpHeaderBytes, u16le, u32le]

theorem bmpHeaderBytes_width (w h isz : Nat) :
    fromLE32 ((bmpHeaderBytes w h isz).getD 18 0) ((bmpHeaderBytes w h isz).getD 19 0)
      ((bmpHeaderBytes w h isz).getD 20 0) ((bmpHeaderBytes w h isz).getD 21 0) =
      fromLE32 (w % 256) (w / 256 % 256) (w / 65536 % 256) (w / 16777216 % 256) := by
  simp only [bmpHeaderBytes, u16le, u32le, List.cons_append, List.nil_append]
  rfl

theorem bmpHeaderBytes_height (w h isz : Nat) :
    fromLE32 ((bmpHeaderBytes w h isz).getD 22 0) ((bmpHeaderBytes w h isz).getD 23 0)
      ((bmpHeaderBytes w h isz).getD 24 0) ((bmpHeaderBytes w h isz).getD 25 0) =
      fromLE32 (h % 256) (h / 256 % 256) (h / 65536 % 256) (h / 16777216 % 256) := by
  simp only [bmpHeaderBytes, u16le, u32le, List.cons_append, List.nil_append]
  rfl

theorem fromLE32_u32le (v : Nat) (hv : v < 2 ^ 32) :
    fromLE32 (v % 256) (v / 256 % 256) (v / 65536 % 256) (v / 16777216 % 256) = v := by
  simp only [fromLE32]
  omega

theorem flatMap_u16le_length (row : List Nat) :
    (row.flatMap u16le).length = 2 * row.length := by
  induction row with
  | nil => simp
  | cons v t iht => simp [u16le, iht]; omega

theorem bytesToU16s_flatMap (row : List Nat) (hv : ∀ v ∈ row, v < 65536) :
    bytesToU16s (row.flatMap u16le) = row := by
  induction row with
  | nil => simp [bytesToU16s]
  | cons v t iht =>
    have hv0 : v < 65536 := hv v (by simp)
    have hvt : ∀ x ∈ t, x < 65536 := fun x hx => hv x (by simp [hx])
    have hflat : (v :: t).flatMap u16le =
        (v % 256) :: (v / 256 % 256) :: t.flatMap u16le := by
      simp [u16le]
    rw [hflat]
    show (v % 256 + 256 * (v / 256 % 256)) :: bytesToU16s (t.flatMap u16le) = v :: t
    rw [iht hvt]
    congr 1
    omega

theorem loadRows_encode (rows : List (List Nat)) (w pad : Nat)
    (hlen : ∀ row ∈ rows, row.length = w) (hv : ∀ row ∈ rows, ∀ v ∈ row, v < 65536) :
    loadRows rows.length w pad ((rows.map (encodeRow pad)).flatten) = some rows := by
  induction rows with
  | nil => simp [loadRows]
  | cons row rest ih =>
    have hrow : row.length = w := hlen row (by simp)
    have hrest : ∀ r ∈ rest, r.length = w := fun r hr => hlen r (by simp [hr])
    have hvrow : ∀ v ∈ row, v < 65536 := hv row (by simp)
    have hvrest : ∀ r ∈ rest, ∀ v ∈ r, v < 65536 := fun r hr => hv r (by simp [hr])
    have hrblen : (row.flatMap u16le).length = 2 * w := by
      rw [flatMap_u16le_length, hrow]
    have hstream : ((row :: rest).map (encodeRow pad)).flatten =
        row.flatMap u16le ++ (List.replicate pad 0 ++ (rest.map (encodeRow pad)).flatten) := by
      simp [encodeRow, List.append_assoc]
    have hread1 : readBytes (2 * w)
        (row.flatMap u16le ++ (List.replicate pad 0 ++ (rest.map (encodeRow pad)).flatten)) =
        some (row.flatMap u16le, List.replicate pad 0 ++ (rest.map (encodeRow pad)).flatten) := by
      simp only [readBytes]
      rw [if_pos (by simp [hrblen])]
      rw [List.take_left' hrblen, List.drop_left' hrblen]
    have hread2 : readBytes pad (List.replicate pad 0 ++ (rest.map (encodeRow pad)).flatten) =
        some (List.replicate pad 0, (rest.map (encodeRow pad)).flatten) := by
      simp only [readBytes]
      rw [if_pos (by simp)]
      rw [List.take_left' (by simp), List.drop_left' (by simp)]
    rw [List.length_cons, hstream]
    simp only [loadRows, hread1, hread2, ih hrest hvrest, bytesToU16s_flatMap row hvrow]

theorem palette_lt (v : Nat) (hv : v ∈ palette) : v < 65536 := by
  simp only [palette, List.mem_cons, List.not_mem_nil, or_false] at hv
  rcases hv with h | h | h | h | h | h | h | h | h <;> omega

theorem load_bmp_image_match (s hdr pix : List Nat) (ew eh : Nat)
    (hread : readBytes 54 s = some (hdr, pix))
    (hwid : fromLE32 (hdr.getD 18 0) (hdr.getD 19 0) (hdr.getD 20 0) (hdr.getD 21 0) = ew)
    (hhei : fromLE32 (hdr.getD 22 0) (hdr.getD 23 0) (hdr.getD 24 0) (hdr.getD 25 0) = eh)
    (rows : List (List Nat))
    (hlr : loadRows eh ew ((4 - ew * 2 % 4) % 4) pix = some rows) :
    load_bmp_image (some s) ew eh = some rows.reverse := by
  simp only [load_bmp_image, hread, hwid, hhei]
  rw [if_neg (by simp)]
  rw [hlr]

theorem load_bmp_image_mismatch (s hdr pix : List Nat) (ew eh : Nat)
    (hread : readBytes 54 s = some (hdr, pix))
    (hmis : fromLE32 (hdr.getD 18 0) (hdr.getD 19 0) (hdr.getD 20 0) (hdr.getD 21 0) ≠ ew ∨
      fromLE32 (hdr.getD 22 0) (hdr.getD 23 0) (hdr.getD 24 0) (hdr.getD 25 0) ≠ eh) :
    load_bmp_image (some s) ew eh =
      some (List.replicate eh (List.replicate ew 0)) := by
  simp only [load_bmp_image, hread]
  rw [if_pos hmis]

/-- C4 counterexample: the claim quantifies over every non-empty rectangular
palette grid, but for the one-row grid of width `2 ^ 32` the serialized
header records the width modulo `2 ^ 32`, i.e. 0; deserialization then sees a
dimension mismatch and returns the blank fallback grid instead of the
original, so the round trip fails. -/
theorem c4_roundtrip_counterexample :
    load_bmp_image (save_bmp_image [List.replicate (2 ^ 32) 0xF800]) (2 ^ 32) 1 ≠
      some [List.replicate (2 ^ 32) 0xF800] := by
  have hlen : (List.replicate (2 ^ 32) 0xF800).length = 2 ^ 32 := List.length_replicate _ _
  have hsave : save_bmp_image [List.replicate (2 ^ 32) 0xF800] =
      some (bmpHeaderBytes (List.replicate (2 ^ 32) 0xF800).length
          [List.replicate (2 ^ 32) 0xF800].length
          (((List.replicate (2 ^ 32) 0xF800).length * 2 +
            (4 - (List.replicate (2 ^ 32) 0xF800).length * 2 % 4) % 4) *
            [List.replicate (2 ^ 32) 0xF800].length) ++
        ([List.replicate (2 ^ 32) 0xF800].reverse.map
          (encodeRow ((4 - (List.replicate (2 ^ 32) 0xF800).length * 2 % 4) % 4))).flatten) := by
    simp only [save_bmp_image]
  rw [hlen] at hsave
  rw [hsave]
  have hhdrlen : (bmpHeaderBytes (2 ^ 32) [List.replicate (2 ^ 32) 0xF800].length
      ((2 ^ 32 * 2 + (4 - 2 ^ 32 * 2 % 4) % 4) * [List.replicate (2 ^ 32) 0xF800].length)).length =
      54 := bmpHeaderBytes_length _ _ _
  have hread : readBytes 54 (bmpHeaderBytes (2 ^ 32) [List.replicate (2 ^ 32) 0xF800].length
        ((2 ^ 32 * 2 + (4 - 2 ^ 32 * 2 % 4) % 4) * [List.replicate (2 ^ 32) 0xF800].length) ++
        ([List.replicate (2 ^ 32) 0xF800].reverse.map
          (encodeRow ((4 - 2 ^ 32 * 2 % 4) % 4))).flatten) =
      some (bmpHeaderBytes (2 ^ 32) [List.replicate (2 ^ 32) 0xF800].length
          ((2 ^ 32 * 2 + (4 - 2 ^ 32 * 2 % 4) % 4) * [List.replicate (2 ^ 32) 0xF800].length),
        ([List.replicate (2 ^ 32) 0xF800].reverse.map
          (encodeRow ((4 - 2 ^ 32 * 2 % 4) % 4))).flatten) := by
    simp only [readBytes]
    rw [if_pos (by rw [List.length_append, hhdrlen]; omega)]
    rw [List.take_left' hhdrlen, List.drop_left' hhdrlen]
  have hwid := bmpHeaderBytes_width (2 ^ 32) [List.replicate (2 ^ 32) 0xF800].length
      ((2 ^ 32 * 2 + (4 - 2 ^ 32 * 2 % 4) % 4) * [List.replicate (2 ^ 32) 0xF800].length)
  have hwid0 : fromLE32 (2 ^ 32 % 256) (2 ^ 32 / 256 % 256) (2 ^ 32 / 65536 % 256)
      (2 ^ 32 / 16777216 % 256) = 0 := by norm_num [fromLE32]
  rw [load_bmp_image_mismatch _ _ _ (2 ^ 32) 1 hread
    (Or.inl (by rw [hwid, hwid0]; norm_num))]
  intro heq
  simp only [Option.some.injEq, List.replicate_one] at heq
  have h0 : List.replicate (2 ^ 32) (0 : Nat) = List.replicate (2 ^ 32) 0xF800 := by
    injection heq
  have := List.replicate_right_injective (by norm_num : (2 ^ 32 : Nat) ≠ 0) h0
  norm_num at this

/-- C4 amended: for every non-empty rectangular grid of palette color values
whose width and height are below `2 ^ 32` (so that they fit the 32-bit header
fields), deserializing the serialized byte stream with the same expected
dimensions returns exactly the original grid. -/
theorem c4_roundtrip_bounded (data : List (List Nat)) (h w : Nat)
    (hne : data ≠ []) (hh : data.length = h) (hw : ∀ row ∈ data, row.length = w)
    (hpal : ∀ row ∈ data, ∀ v ∈ row, v ∈ palette)
    (hwb : w < 2 ^ 32) (hhb : h < 2 ^ 32) :
    load_bmp_image (save_bmp_image data) w h = some data := by
  rcases data with _ | ⟨r0, drest⟩
  · exact absurd rfl hne
  have hr0 : r0.length = w := hw r0 (by simp)
  have hsave : save_bmp_image (r0 :: drest) =
      some (bmpHeaderBytes r0.length (r0 :: drest).length
          ((r0.length * 2 + (4 - r0.length * 2 % 4) % 4) * (r0 :: drest).length) ++
        ((r0 :: drest).reverse.map (encodeRow ((4 - r0.length * 2 % 4) % 4))).flatten) := by
    simp only [save_bmp_image]
  rw [hr0] at hsave
  rw [hsave]
  have hhdrlen : (bmpHeaderBytes w (r0 :: drest).length
      ((w * 2 + (4 - w * 2 % 4) % 4) * (r0 :: drest).length)).length = 54 :=
    bmpHeaderBytes_length w _ _
  have hread : readBytes 54 (bmpHeaderBytes w (r0 :: drest).length
        ((w * 2 + (4 - w * 2 % 4) % 4) * (r0 :: drest).length) ++
        ((r0 :: drest).reverse.map (encodeRow ((4 - w * 2 % 4) % 4))).flatten) =
      some (bmpHeaderBytes w (r0 :: drest).length
          ((w * 2 + (4 - w * 2 % 4) % 4) * (r0 :: drest).length),
        ((r0 :: drest).reverse.map (encodeRow ((4 - w * 2 % 4) % 4))).flatten) := by
    simp only [readBytes]
    rw [if_pos (by rw [List.length_append, hhdrlen]; omega)]
    rw [List.take_left' hhdrlen, List.drop_left' hhdrlen]
  have hrev_len : ∀ r ∈ (r0 :: drest).reverse, r.length = w := by
    intro r hr
    exact hw r (List.mem_reverse.mp hr)
  have hrev_v : ∀ r ∈ (r0 :: drest).reverse, ∀ v ∈ r, v < 65536 := by
    intro r hr v hvv
    exact palette_lt v (hpal r (List.mem_reverse.mp hr) v hvv)
  have hlr := loadRows_encode ((r0 :: drest).reverse) w ((4 - w * 2 % 4) % 4) hrev_len hrev_v
  rw [List.length_reverse, hh] at hlr
  have hwid := (bmpHeaderBytes_width w (r0 :: drest).length
      ((w * 2 + (4 - w * 2 % 4) % 4) * (r0 :: drest).length)).trans (fromLE32_u32le w hwb)
  have hhei := (bmpHeaderBytes_height w (r0 :: drest).length
      ((w * 2 + (4 - w * 2 % 4) % 4) * (r0 :: drest).length)).trans
      ((congrArg (fun n => fromLE32 (n % 256) (n / 256 % 256) (n / 65536 % 256)
          (n / 16777216 % 256)) hh).trans (fromLE32_u32le h hhb))
  rw [load_bmp_image_match _ _ _ w h hread hwid hhei ((r0 :: drest).reverse) hlr]
  simp

theorem c4_roundtrip_bounded_witness :
    ([[0xF800]] : List (List Nat)) ≠ [] ∧ ([[0xF800]] : List (List Nat)).length = 1 ∧
    (∀ row ∈ ([[0xF800]] : List (List Nat)), row.length = 1) ∧
    (∀ row ∈ ([[0xF800]] : List (List Nat)), ∀ v ∈ row, v ∈ palette) ∧
    1 < 2 ^ 32 ∧
    load_bmp_image (save_bmp_image [[0xF800]]) 1 1 = some [[0xF800]] :=
  ⟨by decide, by decide, by decide, by decide, by decide,
    c4_roundtrip_bounded [[0xF800]] 1 1 (by decide) (by decide) (by decide) (by decide)
      (by decide) (by decide)⟩
